import Mathlib

/-!
Verification development for the temporal aggregation engine of the
nettelhorst-aqi-api repository (`app/tasks/aggregation_task.py` and
`app/tasks/utils.py`).

Timestamps are embedded as natural numbers counting microseconds from an
arbitrary epoch that starts at midnight.  Python `datetime` field accessors
(`dt.minute`, `dt.hour`, ...) and `dt.replace(...)` calls are translated to
explicit division/modulus arithmetic on that count; `timedelta` additions
become plain additions.  Months and years are not represented separately:
the day index subsumes them, which is enough for every property below since
the source never inspects month or year fields.
-/

/-- Microseconds in one second. -/
def usPerSecond : Nat := 1000000

/-- Microseconds in one minute. -/
def usPerMinute : Nat := 60000000

/-- Microseconds in one hour. -/
def usPerHour : Nat := 3600000000

/-- Microseconds in one day. -/
def usPerDay : Nat := 86400000000

/-- Microseconds in half an hour: the aggregation bucket width. -/
def halfHourUs : Nat := 1800000000

/-- `dt.microsecond` of a timestamp. -/
def dtMicrosecond (t : Nat) : Nat := t % usPerSecond

/-- `dt.second` of a timestamp. -/
def dtSecond (t : Nat) : Nat := t / usPerSecond % 60

/-- `dt.minute` of a timestamp. -/
def dtMinute (t : Nat) : Nat := t / usPerMinute % 60

/-- `dt.hour` of a timestamp. -/
def dtHour (t : Nat) : Nat := t / usPerHour % 24

/-- The day index of a timestamp (subsumes day/month/year). -/
def dtDay (t : Nat) : Nat := t / usPerDay

/-- Build a timestamp on day 0 from hour, minute, second (used for the
concrete examples from the specification). -/
def mkTime (h m s : Nat) : Nat := h * usPerHour + m * usPerMinute + s * usPerSecond

/-- Embedding of `round_down_to_half_hour` from `app/tasks/aggregation_task.py`:
`if dt.minute >= 30: dt.replace(minute=30, second=0, microsecond=0)
else: dt.replace(minute=0, second=0, microsecond=0)`. -/
def round_down_to_half_hour (dt : Nat) : Nat :=
  if 30 ≤ dtMinute dt then
    dt - dt % usPerHour + 30 * usPerMinute
  else
    dt - dt % usPerHour

/-- The `window_end` computation in the loop body of `get_30_minute_windows`:
`if current.minute == 0: current.replace(minute=30)`
`elif current.hour == 23: (current + timedelta(days=1)).replace(hour=0, minute=0)`
`else: current.replace(hour=current.hour + 1, minute=0)`.
Each `replace` keeps the second/microsecond part `current % usPerMinute`. -/
def window_end_of (current : Nat) : Nat :=
  if dtMinute current = 0 then
    current - current % usPerHour + 30 * usPerMinute + current % usPerMinute
  else if dtHour current = 23 then
    (current + usPerDay) - (current + usPerDay) % usPerDay + (current + usPerDay) % usPerMinute
  else
    current - current % usPerDay + (dtHour current + 1) * usPerHour + current % usPerMinute

/-- The `while current < end_time` loop of `get_30_minute_windows`, with an
explicit fuel argument bounding the number of iterations (the source loop
terminates because `window_end` strictly exceeds `current`). -/
def get_30_minute_windows_loop (end_time : Nat) : Nat → Nat → List (Nat × Nat)
  | 0, _ => []
  | fuel + 1, current =>
    if current < end_time then
      (if window_end_of current ≤ end_time then [(current, window_end_of current)] else []) ++
        get_30_minute_windows_loop end_time fuel (window_end_of current)
    else []

/-- Embedding of `get_30_minute_windows` from `app/tasks/aggregation_task.py`.
`end_time - current` bounds the iteration count since every iteration
advances `current` by at least one microsecond. -/
def get_30_minute_windows (start_time end_time : Nat) : List (Nat × Nat) :=
  get_30_minute_windows_loop end_time (end_time - round_down_to_half_hour start_time)
    (round_down_to_half_hour start_time)

/-! ### Basic arithmetic facts about the window calculator -/

theorem round_down_eq_sub_mod (t : Nat) :
    round_down_to_half_hour t = t - t % halfHourUs := by
  unfold round_down_to_half_hour dtMinute usPerHour usPerMinute halfHourUs
  split <;> omega

theorem round_down_mod (t : Nat) : round_down_to_half_hour t % halfHourUs = 0 := by
  unfold round_down_to_half_hour dtMinute usPerHour usPerMinute halfHourUs
  split <;> omega

theorem round_down_le (t : Nat) : round_down_to_half_hour t ≤ t := by
  unfold round_down_to_half_hour dtMinute usPerHour usPerMinute
  split <;> omega

theorem lt_round_down_add (t : Nat) : t < round_down_to_half_hour t + halfHourUs := by
  unfold round_down_to_half_hour dtMinute usPerHour usPerMinute halfHourUs
  split <;> omega

/-- On a half-hour-aligned timestamp the loop body's `window_end` is exactly
thirty minutes later. -/
theorem window_end_of_aligned (c : Nat) (hc : c % halfHourUs = 0) :
    window_end_of c = c + halfHourUs := by
  have hc' : c % 1800000000 = 0 := hc
  unfold window_end_of dtMinute dtHour usPerHour usPerMinute usPerDay halfHourUs
  split
  · omega
  · split <;> omega

theorem get_30_minute_windows_loop_stop (e : Nat) (fuel c : Nat) (h : ¬ c < e) :
    get_30_minute_windows_loop e fuel c = [] := by
  cases fuel with
  | zero => rfl
  | succ f => simp [get_30_minute_windows_loop, h]

/-- Characterisation of the window loop started from a half-hour-aligned
point: it yields exactly the arithmetic progression of complete half-hour
windows up to `e`. -/
theorem get_30_minute_windows_loop_eq (e : Nat) :
    ∀ (fuel c : Nat), c % halfHourUs = 0 → e - c ≤ fuel →
      get_30_minute_windows_loop e fuel c =
        (List.range ((e - c) / halfHourUs)).map
          (fun i => (c + halfHourUs * i, c + halfHourUs * (i + 1))) := by
  have hΔ : halfHourUs = 1800000000 := rfl
  intro fuel
  induction fuel with
  | zero =>
    intro c _ hf
    have h0 : (e - c) = 0 := by omega
    simp [get_30_minute_windows_loop, h0]
  | succ f ih =>
    intro c hc hf
    by_cases hce : c < e
    · have hwe : window_end_of c = c + halfHourUs := window_end_of_aligned c hc
      by_cases hle : c + halfHourUs ≤ e
      · have hrec := ih (c + halfHourUs) (by rw [Nat.add_mod_right]; exact hc) (by omega)
        have hn : (e - c) / halfHourUs = (e - (c + halfHourUs)) / halfHourUs + 1 := by
          have h1 : (e - c) - halfHourUs = e - (c + halfHourUs) := by omega
          have h2 : (e - c) / halfHourUs = ((e - c) - halfHourUs) / halfHourUs + 1 :=
            Nat.div_eq_sub_div (by omega) (by omega)
          rw [h1] at h2
          omega
        simp only [get_30_minute_windows_loop, if_pos hce, hwe, if_pos hle, hrec, hn,
          List.singleton_append]
        rw [List.range_succ_eq_map, List.map_cons, List.map_map]
        refine List.cons_eq_cons.mpr ⟨?_, ?_⟩
        · simp
        · refine List.map_congr_left fun i hi => ?_
          simp only [Function.comp_apply, Nat.succ_eq_add_one, Prod.mk.injEq]
          exact ⟨by ring, by ring⟩
      · have hn : (e - c) / halfHourUs = 0 := Nat.div_eq_of_lt (by omega)
        have hstop := get_30_minute_windows_loop_stop e f (c + halfHourUs) (by omega)
        simp [get_30_minute_windows_loop, if_pos hce, hwe, if_neg hle, hstop, hn]
    · have h0 : (e - c) / halfHourUs = 0 := by
        have h1 : e - c = 0 := by omega
        simp [h1]
      simp [get_30_minute_windows_loop_stop e _ c hce, h0]

/-- `get_30_minute_windows` is the arithmetic progression of complete
half-hour windows starting at the rounded-down start time. -/
theorem get_30_minute_windows_eq (s e : Nat) :
    get_30_minute_windows s e =
      (List.range ((e - round_down_to_half_hour s) / halfHourUs)).map
        (fun i => (round_down_to_half_hour s + halfHourUs * i,
                   round_down_to_half_hour s + halfHourUs * (i + 1))) :=
  get_30_minute_windows_loop_eq e _ _ (round_down_mod s) (Nat.le_refl _)

/-- Membership in the produced window list, stated intrinsically: a pair is a
window exactly when its start is half-hour aligned and at or after the
rounded-down start, and it is a complete half-hour window ending at or
before `e`. -/
theorem mem_get_30_minute_windows (s e : Nat) (w : Nat × Nat) :
    w ∈ get_30_minute_windows s e ↔
      w.1 % halfHourUs = 0 ∧ round_down_to_half_hour s ≤ w.1 ∧
        w.2 = w.1 + halfHourUs ∧ w.2 ≤ e := by
  have hΔ : halfHourUs = 1800000000 := rfl
  have hrd : round_down_to_half_hour s % halfHourUs = 0 := round_down_mod s
  rw [get_30_minute_windows_eq]
  simp only [List.mem_map, List.mem_range]
  constructor
  · rintro ⟨i, hi, rfl⟩
    have hmul : (i + 1) * halfHourUs ≤ e - round_down_to_half_hour s :=
      (Nat.le_div_iff_mul_le (by omega)).mp hi
    have hc1 : (i + 1) * halfHourUs = halfHourUs * i + halfHourUs := by ring
    have hpos : 0 < (i + 1) * halfHourUs := Nat.mul_pos (by omega) (by omega)
    refine ⟨?_, ?_, ?_, ?_⟩
    · show (round_down_to_half_hour s + halfHourUs * i) % halfHourUs = 0
      simp [Nat.add_mul_mod_self_left, hrd]
    · exact Nat.le_add_right _ _
    · show round_down_to_half_hour s + halfHourUs * (i + 1) =
        round_down_to_half_hour s + halfHourUs * i + halfHourUs
      ring
    · show round_down_to_half_hour s + halfHourUs * (i + 1) ≤ e
      have hc2 : halfHourUs * (i + 1) = halfHourUs * i + halfHourUs := by ring
      omega
  · rintro ⟨h1, h2, h3, h4⟩
    obtain ⟨k, hk⟩ : halfHourUs ∣ (w.1 - round_down_to_half_hour s) :=
      Nat.dvd_sub' (Nat.dvd_of_mod_eq_zero h1) (Nat.dvd_of_mod_eq_zero hrd)
    refine ⟨k, ?_, ?_⟩
    · rw [Nat.lt_iff_add_one_le, Nat.le_div_iff_mul_le (show 0 < halfHourUs by omega)]
      have hc1 : (k + 1) * halfHourUs = halfHourUs * k + halfHourUs := by ring
      omega
    · have hx : round_down_to_half_hour s + halfHourUs * k = w.1 := by omega
      have hy : round_down_to_half_hour s + halfHourUs * (k + 1) = w.2 := by
        have hc2 : halfHourUs * (k + 1) = halfHourUs * k + halfHourUs := by ring
        omega
      exact Prod.ext_iff.mpr ⟨hx, hy⟩

/-! ### Data model

JSON values stored in the `measure_data` columns.  Python numerics (`int`
and `float`, with `bool` a subclass of `int` as the repository's own tests
exercise) are embedded as exact rationals. -/

/-- A JSON value as stored in a `measure_data` column. -/
inductive MeasureValue where
  | null : MeasureValue
  | boolean : Bool → MeasureValue
  | num : ℚ → MeasureValue
  | str : String → MeasureValue
  | arr : List MeasureValue → MeasureValue
  | obj : List (String × MeasureValue) → MeasureValue

/-- One row of `aqi_5_minute_history` (the fields the aggregation task
reads: `measure_time` and `measure_data`). -/
structure Aqi5MinuteHistory where
  measure_time : Nat
  measure_data : MeasureValue

/-- One row of `aqi_30_minute_history`.  The model class itself is not under
`src/`, but its shape is fixed by every use in `aggregation_task.py` and by
the spec's AggregatedBucket description (entity id is implicit here: the
store is modelled per location). -/
structure Aqi30MinuteHistory where
  measure_time : Nat
  measure_data : List (String × ℚ)
deriving DecidableEq

/-- `value is not None and isinstance(value, (int, float))`, followed by
`float(value)`.  Python `bool` passes the `isinstance` check (`True → 1.0`),
as the repository's own test `test_average_measure_data_invalid_data_types`
documents. -/
def numericValue : MeasureValue → Option ℚ
  | MeasureValue.num q => some q
  | MeasureValue.boolean b => some (if b then 1 else 0)
  | _ => none

/-- `isinstance(record.measure_data, dict) and field in record.measure_data`
followed by `record.measure_data[field]`. -/
def lookupField (m : MeasureValue) (field : String) : Option MeasureValue :=
  match m with
  | MeasureValue.obj fields => fields.lookup field
  | _ => none

/-- The `values` list collected for one field by `average_measure_data`. -/
def fieldValues (field : String) (records : List Aqi5MinuteHistory) : List ℚ :=
  records.filterMap (fun r => (lookupField r.measure_data field).bind numericValue)

/-- Python's `round(x, 2)` modelled over exact rationals as round-half-up at
the second decimal (the source applies it to a float; tie-breaking at the
third decimal is not modelled exactly). -/
def round2 (q : ℚ) : ℚ := ((⌊q * 100 + 1 / 2⌋ : ℤ) : ℚ) / 100

/-- The fixed field list of `average_measure_data`. -/
def fields_to_average : List String :=
  ["rco2_corrected", "atmp", "tvoc", "tvocIndex", "rhum_corrected", "pm02_corrected"]

/-- Embedding of `average_measure_data` from `app/tasks/aggregation_task.py`:
for each tracked field, collect the numeric occurrences across the records
and emit the 2-decimal-rounded mean when at least one was found. -/
def average_measure_data (records : List Aqi5MinuteHistory) : List (String × ℚ) :=
  fields_to_average.filterMap (fun field =>
    if (fieldValues field records).isEmpty then none
    else some (field,
      round2 ((fieldValues field records).sum / ((fieldValues field records).length : ℚ))))

/-! ### The aggregation run -/

/-- The window-record selection in `aggregate_30_minute_data`:
`[record for record in five_min_records
  if window_start < record.measure_time <= window_end]`. -/
def window_records (window_start window_end : Nat)
    (records : List Aqi5MinuteHistory) : List Aqi5MinuteHistory :=
  records.filter (fun r =>
    decide (window_start < r.measure_time ∧ r.measure_time ≤ window_end))

/-- The watermark query: `db.query(Aqi30MinuteHistory)...
.order_by(desc(Aqi30MinuteHistory.measure_time)).first()`, i.e. the largest
`measure_time` among the location's buckets, `none` when there are none. -/
def latest_30_minute_time (buckets : List Aqi30MinuteHistory) : Option Nat :=
  match buckets.map (fun b => b.measure_time) with
  | [] => none
  | t :: ts => some (ts.foldl max t)

/-- The resume point: the watermark when one exists, otherwise
`current_time - timedelta(days=30)`. -/
def resume_start_time (current_time : Nat) (buckets : List Aqi30MinuteHistory) : Nat :=
  match latest_30_minute_time buckets with
  | some t => t
  | none => current_time - 30 * usPerDay

/-- The raw-record fetch: all 5-minute rows with
`measure_time > start_time` and `measure_time <= max_end_time`. -/
def fetch_five_minute_records (start_time max_end_time : Nat)
    (raws : List Aqi5MinuteHistory) : List Aqi5MinuteHistory :=
  raws.filter (fun r =>
    decide (start_time < r.measure_time ∧ r.measure_time ≤ max_end_time))

/-- The body of the per-window loop in `aggregate_30_minute_data`: skip the
window when it has no records, when averaging yields nothing, or when a
bucket with this window's end already exists (in the committed table or
among this run's pending inserts); otherwise insert a new bucket. -/
def insert_step (buckets : List Aqi30MinuteHistory) (five : List Aqi5MinuteHistory)
    (inserted : List Aqi30MinuteHistory) (w : Nat × Nat) : List Aqi30MinuteHistory :=
  if (window_records w.1 w.2 five).isEmpty then inserted
  else if (average_measure_data (window_records w.1 w.2 five)).isEmpty then inserted
  else if (buckets ++ inserted).any (fun b => b.measure_time == w.2) then inserted
  else inserted ++ [⟨w.2, average_measure_data (window_records w.1 w.2 five)⟩]

/-- The per-window loop over all windows, accumulating this run's inserts. -/
def process_windows (buckets : List Aqi30MinuteHistory) (five : List Aqi5MinuteHistory)
    (windows : List (Nat × Nat)) : List Aqi30MinuteHistory :=
  windows.foldl (insert_step buckets five) []

/-- Per-location processing of `aggregate_30_minute_data` (steps: watermark,
fetch, early exit when nothing new, window generation, per-window loop).
Returns the buckets inserted for this location. -/
def process_location (current_time max_end_time : Nat)
    (buckets : List Aqi30MinuteHistory) (raws : List Aqi5MinuteHistory) :
    List Aqi30MinuteHistory :=
  if (fetch_five_minute_records (resume_start_time current_time buckets) max_end_time
      raws).isEmpty then []
  else
    process_windows buckets
      (fetch_five_minute_records (resume_start_time current_time buckets) max_end_time raws)
      (get_30_minute_windows (resume_start_time current_time buckets) max_end_time)

/-- The global ceiling of a run:
`round_down_to_half_hour(current_time - timedelta(minutes=30))`. -/
def global_ceiling (current_time : Nat) : Nat :=
  round_down_to_half_hour (current_time - 30 * usPerMinute)

/-- The per-location store a run sees: that location's committed 30-minute
buckets and its raw 5-minute rows. -/
structure LocationState where
  buckets : List Aqi30MinuteHistory
  raws : List Aqi5MinuteHistory

/-- The `for location in locations` loop.  The loop body sits inside the
single run-level `try`, so an exception while processing one location
(modelled by a `none` entry) aborts the loop: locations after it are not
processed.  Returns the per-location inserts of the locations that were
processed and the error of the aborting location, if any. -/
def run_locations (current_time max_end_time : Nat) :
    List (Option LocationState) → List (List Aqi30MinuteHistory) × Option String
  | [] => ([], none)
  | none :: _ => ([], some "database error")
  | some st :: rest =>
    match run_locations current_time max_end_time rest with
    | (outs, err) =>
      (process_location current_time max_end_time st.buckets st.raws :: outs, err)

/-- The mutable fields of a `task_logs` row that the run touches. -/
structure TaskLog where
  status : String
  result : Option String
  error_message : Option String
  is_successful : Option Bool
deriving DecidableEq

/-- Embedding of `update_task_log` from `app/tasks/utils.py`: set status and
result, record the result as `error_message` when unsuccessful. -/
def update_task_log (log : TaskLog) (status : String) (result : String)
    (is_successful : Bool) : TaskLog :=
  { log with
    status := status
    result := some result
    is_successful := some is_successful
    error_message := if is_successful then log.error_message else some result }

/-- The task-log row as created at the start of a run. -/
def initial_task_log : TaskLog :=
  { status := "started", result := none, error_message := none, is_successful := none }

/-- Embedding of `aggregate_30_minute_data` from
`app/tasks/aggregation_task.py`: create the log row, compute the global
ceiling, handle the no-locations case, run the per-location loop, and update
the log row to `completed`, or to `failed` with the error message as the
result when the loop raised. -/
def aggregate_30_minute_data (current_time : Nat)
    (locations : List (Option LocationState)) :
    TaskLog × List (List Aqi30MinuteHistory) :=
  if locations.isEmpty then
    (update_task_log initial_task_log "completed" "No locations found" true, [])
  else
    match run_locations current_time (global_ceiling current_time) locations with
    | (outs, none) =>
      (update_task_log initial_task_log "completed" "run summary" true, outs)
    | (outs, some e) =>
      (update_task_log initial_task_log "failed"
        ("Error in aggregate_30_minute_data: " ++ e) false, outs)

/-! ### Helper lemmas about the run model -/

theorem foldl_max_le_iff (l : List Nat) :
    ∀ (a x : Nat), l.foldl max a ≤ x ↔ a ≤ x ∧ ∀ y ∈ l, y ≤ x := by
  induction l with
  | nil => intro a x; simp
  | cons h t ih =>
    intro a x
    rw [List.foldl_cons, ih]
    simp only [List.mem_cons]
    constructor
    · rintro ⟨hax, hall⟩
      exact ⟨le_trans (le_max_left a h) hax,
        fun y hy => hy.elim (fun hyh => hyh ▸ le_trans (le_max_right a h) hax)
          (fun hyt => hall y hyt)⟩
    · rintro ⟨hax, hall⟩
      exact ⟨max_le hax (hall h (Or.inl rfl)), fun y hy => hall y (Or.inr hy)⟩

theorem foldl_max_mem (l : List Nat) :
    ∀ (a : Nat), l.foldl max a = a ∨ l.foldl max a ∈ l := by
  induction l with
  | nil => intro a; simp
  | cons h t ih =>
    intro a
    rw [List.foldl_cons]
    rcases ih (max a h) with heq | hmem
    · rw [heq]
      rcases Nat.le_total a h with hle | hle
      · right
        rw [max_eq_right hle]
        exact List.mem_cons_self h t
      · left
        exact max_eq_left hle
    · right
      exact List.mem_cons_of_mem h hmem

theorem latest_30_minute_time_spec (buckets : List Aqi30MinuteHistory) (T : Nat)
    (h : latest_30_minute_time buckets = some T) :
    (∃ b ∈ buckets, b.measure_time = T) ∧ ∀ b ∈ buckets, b.measure_time ≤ T := by
  unfold latest_30_minute_time at h
  rcases hb : buckets.map (fun b => b.measure_time) with _ | ⟨t, ts⟩
  · rw [hb] at h; exact absurd h (by simp)
  · rw [hb] at h
    have hT : ts.foldl max t = T := by simpa using h
    constructor
    · have hmem : T ∈ buckets.map (fun b => b.measure_time) := by
        rw [hb]
        rcases foldl_max_mem ts t with heq | hmem
        · have hTt : T = t := by omega
          rw [hTt]
          exact List.mem_cons_self t ts
        · rw [← hT]
          exact List.mem_cons_of_mem t hmem
      obtain ⟨b, hbmem, hbt⟩ := List.mem_map.mp hmem
      exact ⟨b, hbmem, hbt⟩
    · intro b hbmem
      have hmt : b.measure_time ∈ buckets.map (fun b => b.measure_time) :=
        List.mem_map.mpr ⟨b, hbmem, rfl⟩
      rw [hb] at hmt
      have hle := (foldl_max_le_iff ts t T).mp (le_of_eq hT)
      rcases List.mem_cons.mp hmt with heq | hmem
      · omega
      · exact hle.2 _ hmem

theorem latest_30_minute_time_eq_none (buckets : List Aqi30MinuteHistory) :
    latest_30_minute_time buckets = none ↔ buckets = [] := by
  unfold latest_30_minute_time
  cases buckets <;> simp

theorem latest_30_minute_time_isSome (buckets : List Aqi30MinuteHistory)
    (h : buckets ≠ []) : ∃ T, latest_30_minute_time buckets = some T := by
  cases hl : latest_30_minute_time buckets with
  | none => exact absurd ((latest_30_minute_time_eq_none buckets).mp hl) h
  | some T => exact ⟨T, rfl⟩

/-- The condition under which the per-window loop body actually inserts a
bucket, with the duplicate check taken against the committed table only
(this run's pending inserts never collide because window ends are distinct;
see `process_windows_eq`). -/
def window_good (buckets : List Aqi30MinuteHistory) (five : List Aqi5MinuteHistory)
    (w : Nat × Nat) : Bool :=
  !(window_records w.1 w.2 five).isEmpty &&
    (!(average_measure_data (window_records w.1 w.2 five)).isEmpty &&
      !(buckets.any (fun b => b.measure_time == w.2)))

/-- The bucket the loop body inserts for a window. -/
def window_bucket (five : List Aqi5MinuteHistory) (w : Nat × Nat) : Aqi30MinuteHistory :=
  ⟨w.2, average_measure_data (window_records w.1 w.2 five)⟩

theorem process_windows_go (buckets : List Aqi30MinuteHistory)
    (five : List Aqi5MinuteHistory) :
    ∀ (windows : List (Nat × Nat)) (acc : List Aqi30MinuteHistory),
      (windows.map Prod.snd).Nodup →
      (∀ w ∈ windows, ∀ b ∈ acc, b.measure_time ≠ w.2) →
      windows.foldl (insert_step buckets five) acc =
        acc ++ (windows.filter (window_good buckets five)).map (window_bucket five) := by
  intro windows
  induction windows with
  | nil => intro acc _ _; simp
  | cons w ws ih =>
    intro acc hnd hacc
    have hnd' : (ws.map Prod.snd).Nodup := by
      rw [List.map_cons] at hnd; exact hnd.of_cons
    have hwend : w.2 ∉ ws.map Prod.snd := by
      rw [List.map_cons] at hnd
      exact (List.nodup_cons.mp hnd).1
    have haccany : acc.any (fun b => b.measure_time == w.2) = false := by
      rw [List.any_eq_false]
      intro b hb
      simpa using hacc w (List.mem_cons_self w ws) b hb
    rw [List.foldl_cons]
    by_cases h1 : (window_records w.1 w.2 five).isEmpty
    · have hstep : insert_step buckets five acc w = acc := by
        unfold insert_step; rw [if_pos h1]
      have hgood : window_good buckets five w = false := by
        unfold window_good; rw [h1]; rfl
      rw [hstep, ih acc hnd' (fun w' hw' => hacc w' (List.mem_cons_of_mem w hw')),
        List.filter_cons, hgood]
      simp
    · by_cases h2 : (average_measure_data (window_records w.1 w.2 five)).isEmpty
      · have hstep : insert_step buckets five acc w = acc := by
          unfold insert_step; rw [if_neg h1, if_pos h2]
        have hgood : window_good buckets five w = false := by
          unfold window_good
          rw [h2]
          simp
        rw [hstep, ih acc hnd' (fun w' hw' => hacc w' (List.mem_cons_of_mem w hw')),
          List.filter_cons, hgood]
        simp
      · by_cases h3 : buckets.any (fun b => b.measure_time == w.2)
        · have hstep : insert_step buckets five acc w = acc := by
            unfold insert_step
            rw [if_neg h1, if_neg h2, if_pos (by rw [List.any_append, h3]; rfl)]
          have hgood : window_good buckets five w = false := by
            unfold window_good
            rw [h3]
            simp
          rw [hstep, ih acc hnd' (fun w' hw' => hacc w' (List.mem_cons_of_mem w hw')),
            List.filter_cons, hgood]
          simp
        · have h1f : (window_records w.1 w.2 five).isEmpty = false :=
            Bool.not_eq_true _ ▸ h1
          have h2f : (average_measure_data (window_records w.1 w.2 five)).isEmpty
              = false := Bool.not_eq_true _ ▸ h2
          have h3f : buckets.any (fun b => b.measure_time == w.2) = false :=
            Bool.not_eq_true _ ▸ h3
          have hstep : insert_step buckets five acc w =
              acc ++ [window_bucket five w] := by
            unfold insert_step
            rw [if_neg h1, if_neg h2,
              if_neg (by rw [List.any_append, haccany, h3f]; simp)]
            rfl
          have hgood : window_good buckets five w = true := by
            unfold window_good
            rw [h1f, h2f, h3f]
            rfl
          have hrec := ih (acc ++ [window_bucket five w]) hnd' ?_
          · rw [hstep, hrec, List.filter_cons, hgood]
            simp [List.append_assoc, window_bucket]
          · intro w' hw' b hb
            rcases List.mem_append.mp hb with hbl | hbr
            · exact hacc w' (List.mem_cons_of_mem w hw') b hbl
            · have hbw : b = window_bucket five w := by simpa using hbr
              rw [hbw]
              intro hcontra
              have hw2 : w.2 = w'.2 := hcontra
              exact hwend (by
                rw [hw2]
                exact List.mem_map.mpr ⟨w', hw', rfl⟩)

theorem windows_snd_nodup (s e : Nat) :
    ((get_30_minute_windows s e).map Prod.snd).Nodup := by
  rw [get_30_minute_windows_eq, List.map_map]
  refine List.Nodup.map ?_ (List.nodup_range _)
  intro a b hab
  have hΔ : (0 : Nat) < halfHourUs := by norm_num [halfHourUs]
  simp only [Function.comp_apply] at hab
  have h1 : halfHourUs * (a + 1) = halfHourUs * (b + 1) := Nat.add_left_cancel hab
  have h2 : a + 1 = b + 1 := Nat.eq_of_mul_eq_mul_left hΔ h1
  omega

theorem window_mem_facts (s e : Nat) (w : Nat × Nat)
    (hw : w ∈ get_30_minute_windows s e) :
    w.1 % halfHourUs = 0 ∧ w.2 % halfHourUs = 0 ∧ round_down_to_half_hour s ≤ w.1 ∧
      w.2 = w.1 + halfHourUs ∧ w.2 ≤ e ∧ s < w.2 := by
  obtain ⟨h1, h2, h3, h4⟩ := (mem_get_30_minute_windows s e w).mp hw
  have h5 := lt_round_down_add s
  refine ⟨h1, ?_, h2, h3, h4, by omega⟩
  rw [h3, Nat.add_mod_right]
  exact h1

theorem chain'_map_range {α : Type} (R : α → α → Prop) (f : Nat → α)
    (h : ∀ i, R (f i) (f (i + 1))) (n : Nat) :
    List.Chain' R ((List.range n).map f) := by
  rw [List.chain'_iff_get]
  intro i hi
  simp only [List.get_eq_getElem, List.getElem_map, List.getElem_range]
  exact h i

/-- Membership in the per-window record selection. -/
theorem mem_window_records (ws we : Nat) (recs : List Aqi5MinuteHistory)
    (r : Aqi5MinuteHistory) :
    r ∈ window_records ws we recs ↔
      r ∈ recs ∧ ws < r.measure_time ∧ r.measure_time ≤ we := by
  unfold window_records
  rw [List.mem_filter, decide_eq_true_eq]

/-- Selecting a window's records from the fetched rows equals selecting them
from all raw rows, provided the window lies inside the fetched range. -/
theorem window_records_fetch (s met a bnd : Nat) (raws : List Aqi5MinuteHistory)
    (hsa : s ≤ a) (hbm : bnd ≤ met) :
    window_records a bnd (fetch_five_minute_records s met raws) =
      window_records a bnd raws := by
  unfold window_records fetch_five_minute_records
  rw [List.filter_filter]
  apply List.filter_congr
  intro r hr
  by_cases h : a < r.measure_time ∧ r.measure_time ≤ bnd
  · have h2 : s < r.measure_time ∧ r.measure_time ≤ met := ⟨by omega, by omega⟩
    simp [h, h2]
  · simp [h]

/-- `process_location` unfolded to the inserted-bucket list it produces. -/
theorem process_location_eq (ct met : Nat) (buckets : List Aqi30MinuteHistory)
    (raws : List Aqi5MinuteHistory) :
    process_location ct met buckets raws =
      if (fetch_five_minute_records (resume_start_time ct buckets) met raws).isEmpty
      then []
      else
        ((get_30_minute_windows (resume_start_time ct buckets) met).filter
            (window_good buckets
              (fetch_five_minute_records (resume_start_time ct buckets) met raws))).map
          (window_bucket
            (fetch_five_minute_records (resume_start_time ct buckets) met raws)) := by
  unfold process_location process_windows
  split
  · rfl
  · rw [process_windows_go _ _ _ [] (windows_snd_nodup _ _)
      (by intro w hw b hb; exact absurd hb (List.not_mem_nil b))]
    rw [List.nil_append]

/-- Every bucket inserted by `process_location` comes from a good window. -/
theorem mem_process_location (ct met : Nat) (buckets : List Aqi30MinuteHistory)
    (raws : List Aqi5MinuteHistory) (b : Aqi30MinuteHistory)
    (hb : b ∈ process_location ct met buckets raws) :
    ∃ w ∈ get_30_minute_windows (resume_start_time ct buckets) met,
      b = window_bucket
          (fetch_five_minute_records (resume_start_time ct buckets) met raws) w ∧
        window_good buckets
          (fetch_five_minute_records (resume_start_time ct buckets) met raws) w = true := by
  rw [process_location_eq] at hb
  split at hb
  · exact absurd hb (List.not_mem_nil b)
  · obtain ⟨w, hwmem, hwb⟩ := List.mem_map.mp hb
    obtain ⟨hwin, hgood⟩ := List.mem_filter.mp hwmem
    exact ⟨w, hwin, hwb.symm, hgood⟩

/-- Time bounds on every bucket inserted by `process_location`. -/
theorem process_location_time_bounds (ct met : Nat)
    (buckets : List Aqi30MinuteHistory) (raws : List Aqi5MinuteHistory)
    (b : Aqi30MinuteHistory) (hb : b ∈ process_location ct met buckets raws) :
    resume_start_time ct buckets < b.measure_time ∧ b.measure_time ≤ met ∧
      b.measure_time % halfHourUs = 0 := by
  obtain ⟨w, hwmem, hbw, _⟩ := mem_process_location ct met buckets raws b hb
  obtain ⟨_, hmod, _, _, hle, hlt⟩ := window_mem_facts _ met w hwmem
  have hbt : b.measure_time = w.2 := by rw [hbw]; rfl
  exact ⟨by omega, by omega, by rw [hbt]; exact hmod⟩

/-! ### Claim theorems -/

/-- C3: `round_down_to_half_hour` truncates to the start of the containing
half-hour: minute becomes 0 below 30 and 30 otherwise, seconds and
sub-seconds become 0, hour and day (hence month and year) are unchanged;
and the three concrete examples from the specification hold. -/
theorem round_down_to_half_hour_spec (t : Nat) :
    (dtMinute t < 30 → dtMinute (round_down_to_half_hour t) = 0)
    ∧ (30 ≤ dtMinute t → dtMinute (round_down_to_half_hour t) = 30)
    ∧ dtSecond (round_down_to_half_hour t) = 0
    ∧ dtMicrosecond (round_down_to_half_hour t) = 0
    ∧ dtHour (round_down_to_half_hour t) = dtHour t
    ∧ dtDay (round_down_to_half_hour t) = dtDay t
    ∧ round_down_to_half_hour (mkTime 12 15 30) = mkTime 12 0 0
    ∧ round_down_to_half_hour (mkTime 12 45 45) = mkTime 12 30 0
    ∧ round_down_to_half_hour (mkTime 12 30 0) = mkTime 12 30 0 := by
  refine ⟨?_, ?_, ?_, ?_, ?_, ?_, by decide, by decide, by decide⟩
  · intro h
    unfold dtMinute usPerMinute at h
    unfold round_down_to_half_hour dtMinute usPerHour usPerMinute
    split <;> omega
  · intro h
    unfold dtMinute usPerMinute at h
    unfold round_down_to_half_hour dtMinute usPerHour usPerMinute
    split <;> omega
  · unfold round_down_to_half_hour dtSecond dtMinute usPerSecond usPerHour usPerMinute
    split <;> omega
  · unfold round_down_to_half_hour dtMicrosecond dtMinute usPerSecond usPerHour usPerMinute
    split <;> omega
  · unfold round_down_to_half_hour dtHour dtMinute usPerHour usPerMinute
    split <;> omega
  · unfold round_down_to_half_hour dtDay dtMinute usPerDay usPerHour usPerMinute
    split <;> omega

/-- Witness for `round_down_to_half_hour_spec`: the two implications at the
specification's own example inputs. -/
theorem round_down_to_half_hour_spec_witness :
    dtMinute (mkTime 12 15 30) < 30
    ∧ dtMinute (round_down_to_half_hour (mkTime 12 15 30)) = 0
    ∧ 30 ≤ dtMinute (mkTime 12 45 45)
    ∧ dtMinute (round_down_to_half_hour (mkTime 12 45 45)) = 30 :=
  ⟨by decide, (round_down_to_half_hour_spec (mkTime 12 15 30)).1 (by decide),
    by decide, (round_down_to_half_hour_spec (mkTime 12 45 45)).2.1 (by decide)⟩

/-- C1: `get_30_minute_windows` returns exactly the ascending sequence of all
complete half-hour windows whose aligned start is at or after the
rounded-down start time and whose end is at or before the end time; it is
empty when start equals end; an aligned start is the first window's start;
and the two concrete examples from the specification hold. -/
theorem get_30_minute_windows_spec (s e : Nat) :
    (∀ w : Nat × Nat, w ∈ get_30_minute_windows s e ↔
        w.1 % halfHourUs = 0 ∧ round_down_to_half_hour s ≤ w.1 ∧
          w.2 = w.1 + halfHourUs ∧ w.2 ≤ e)
    ∧ List.Chain' (fun a b : Nat × Nat => a.1 < b.1) (get_30_minute_windows s e)
    ∧ get_30_minute_windows s s = []
    ∧ (s % halfHourUs = 0 →
        ∀ w : Nat × Nat, (get_30_minute_windows s e).head? = some w → w.1 = s)
    ∧ get_30_minute_windows (mkTime 10 15 0) (mkTime 12 0 0) =
        [(mkTime 10 0 0, mkTime 10 30 0), (mkTime 10 30 0, mkTime 11 0 0),
         (mkTime 11 0 0, mkTime 11 30 0), (mkTime 11 30 0, mkTime 12 0 0)]
    ∧ get_30_minute_windows (mkTime 10 45 0) (mkTime 10 50 0) = [] := by
  have hΔ : halfHourUs = 1800000000 := rfl
  refine ⟨mem_get_30_minute_windows s e, ?_, ?_, ?_, by decide, by decide⟩
  · rw [get_30_minute_windows_eq]
    apply chain'_map_range
    intro i
    show round_down_to_half_hour s + halfHourUs * i <
      round_down_to_half_hour s + halfHourUs * (i + 1)
    have h1 : halfHourUs * (i + 1) = halfHourUs * i + halfHourUs := by ring
    omega
  · rw [get_30_minute_windows_eq]
    have h1 : round_down_to_half_hour s = s - s % 1800000000 := round_down_eq_sub_mod s
    have h0 : (s - round_down_to_half_hour s) / halfHourUs = 0 :=
      Nat.div_eq_of_lt (by omega)
    rw [h0]
    rfl
  · intro hs w hw
    have hrd : round_down_to_half_hour s = s := by
      rw [round_down_eq_sub_mod, hs]
      exact Nat.sub_zero s
    rw [get_30_minute_windows_eq, hrd] at hw
    cases hn : (e - s) / halfHourUs with
    | zero =>
      rw [hn] at hw
      exact absurd hw (by simp)
    | succ m =>
      rw [hn, List.range_succ_eq_map, List.map_cons, List.head?_cons] at hw
      have hw' : w = (s + halfHourUs * 0, s + halfHourUs * (0 + 1)) :=
        (Option.some.injEq _ _ ▸ hw).symm
      rw [hw']
      simp

/-- Witness for `get_30_minute_windows_spec`: the membership equivalence and
the aligned-start implication at concrete inputs. -/
theorem get_30_minute_windows_spec_witness :
    mkTime 10 30 0 % halfHourUs = 0
    ∧ (get_30_minute_windows (mkTime 10 30 0) (mkTime 11 0 0)).head? =
        some (mkTime 10 30 0, mkTime 11 0 0)
    ∧ (mkTime 10 30 0, mkTime 11 0 0).1 = mkTime 10 30 0
    ∧ (mkTime 10 0 0, mkTime 10 30 0) ∈
        get_30_minute_windows (mkTime 10 15 0) (mkTime 12 0 0) :=
  ⟨by decide, by decide,
    (get_30_minute_windows_spec (mkTime 10 30 0) (mkTime 11 0 0)).2.2.2.1
      (by decide) _ (by decide),
    ((get_30_minute_windows_spec (mkTime 10 15 0) (mkTime 12 0 0)).1 _).mpr
      (by decide)⟩

/-- C4: a fetched raw record is assigned to a window exactly when
`window_start < measure_time ≤ window_end`; a record exactly at the window
end belongs to the window, one exactly at the window start does not. -/
theorem window_records_boundary_spec (ws we : Nat) (recs : List Aqi5MinuteHistory)
    (r : Aqi5MinuteHistory) :
    (r ∈ window_records ws we recs ↔
        r ∈ recs ∧ ws < r.measure_time ∧ r.measure_time ≤ we)
    ∧ (r.measure_time = we → r ∈ recs → ws < we → r ∈ window_records ws we recs)
    ∧ (r.measure_time = ws → r ∉ window_records ws we recs) := by
  refine ⟨mem_window_records ws we recs r, ?_, ?_⟩
  · intro h1 h2 h3
    exact (mem_window_records ws we recs r).mpr ⟨h2, by omega, by omega⟩
  · intro h1 hcontra
    obtain ⟨_, h2, _⟩ := (mem_window_records ws we recs r).mp hcontra
    omega

/-- Witness for `window_records_boundary_spec`: a record stamped exactly at
a window's end is selected for that window and not for the next one. -/
theorem window_records_boundary_spec_witness :
    (⟨mkTime 10 30 0, MeasureValue.null⟩ : Aqi5MinuteHistory) ∈
      window_records (mkTime 10 0 0) (mkTime 10 30 0)
        [⟨mkTime 10 30 0, MeasureValue.null⟩]
    ∧ (⟨mkTime 10 30 0, MeasureValue.null⟩ : Aqi5MinuteHistory) ∉
      window_records (mkTime 10 30 0) (mkTime 11 0 0)
        [⟨mkTime 10 30 0, MeasureValue.null⟩] :=
  ⟨(window_records_boundary_spec _ _ _ _).2.1 rfl (List.mem_singleton_self _)
      (by decide),
    (window_records_boundary_spec _ _ _ _).2.2 rfl⟩

/-- C10 (implicit): the generated windows are contiguous (each end equals
the next start) and pairwise disjoint under the `(start, end]` membership
rule, so one record is selected for at most one emitted window. -/
theorem windows_contiguous_disjoint_spec (s e : Nat) :
    List.Chain' (fun a b : Nat × Nat => a.2 = b.1) (get_30_minute_windows s e)
    ∧ (∀ w w' : Nat × Nat, w ∈ get_30_minute_windows s e →
        w' ∈ get_30_minute_windows s e →
        ∀ t : Nat, w.1 < t → t ≤ w.2 → w'.1 < t → t ≤ w'.2 → w = w')
    ∧ (∀ w w' : Nat × Nat, w ∈ get_30_minute_windows s e →
        w' ∈ get_30_minute_windows s e →
        ∀ (recs : List Aqi5MinuteHistory) (r : Aqi5MinuteHistory),
          r ∈ window_records w.1 w.2 recs → r ∈ window_records w'.1 w'.2 recs →
          w = w') := by
  have hΔ : halfHourUs = 1800000000 := rfl
  have key : ∀ w w' : Nat × Nat, w ∈ get_30_minute_windows s e →
      w' ∈ get_30_minute_windows s e →
      ∀ t : Nat, w.1 < t → t ≤ w.2 → w'.1 < t → t ≤ w'.2 → w = w' := by
    intro w w' hw hw' t h1 h2 h3 h4
    obtain ⟨ha1, ha2, ha3, ha4⟩ := (mem_get_30_minute_windows s e w).mp hw
    obtain ⟨hb1, hb2, hb3, hb4⟩ := (mem_get_30_minute_windows s e w').mp hw'
    have ha1' : w.1 % 1800000000 = 0 := ha1
    have hb1' : w'.1 % 1800000000 = 0 := hb1
    have hfst : w.1 = w'.1 := by omega
    exact Prod.ext_iff.mpr ⟨hfst, by omega⟩
  refine ⟨?_, key, ?_⟩
  · rw [get_30_minute_windows_eq]
    apply chain'_map_range
    intro i
    show round_down_to_half_hour s + halfHourUs * (i + 1) =
      round_down_to_half_hour s + halfHourUs * (i + 1)
    rfl
  · intro w w' hw hw' recs r hr hr'
    obtain ⟨_, h1, h2⟩ := (mem_window_records _ _ recs r).mp hr
    obtain ⟨_, h3, h4⟩ := (mem_window_records _ _ recs r).mp hr'
    exact key w w' hw hw' r.measure_time h1 h2 h3 h4

/-- Witness for `windows_contiguous_disjoint_spec`: the disjointness
implication applied at a concrete window and record. -/
theorem windows_contiguous_disjoint_spec_witness :
    (mkTime 10 0 0, mkTime 10 30 0) ∈
      get_30_minute_windows (mkTime 10 15 0) (mkTime 12 0 0)
    ∧ (mkTime 10 0 0, mkTime 10 30 0) = (mkTime 10 0 0, mkTime 10 30 0) :=
  ⟨by decide,
    (windows_contiguous_disjoint_spec (mkTime 10 15 0) (mkTime 12 0 0)).2.1
      _ _ (by decide) (by decide) (mkTime 10 15 0)
      (by decide) (by decide) (by decide) (by decide)⟩

theorem filterMap_ite {α β : Type} (l : List α) (p : α → Bool) (g : α → β) :
    (l.filterMap fun a => if p a then none else some (g a)) =
      (l.filter fun a => !p a).map g := by
  induction l with
  | nil => rfl
  | cons h t ih =>
    by_cases hp : p h
    · simp [List.filterMap_cons, List.filter_cons, hp, ih]
    · simp [List.filterMap_cons, List.filter_cons, hp, ih]

/-- C2: `average_measure_data` maps exactly the tracked fields that have at
least one numeric, non-null occurrence to the 2-decimal-rounded mean of
those occurrences; fields with no valid occurrence are absent; the empty
record list yields the empty mapping; no key outside the fixed six appears. -/
theorem average_measure_data_spec (records : List Aqi5MinuteHistory) :
    average_measure_data records =
        (fields_to_average.filter
            (fun field => !(fieldValues field records).isEmpty)).map
          (fun field => (field,
            round2 ((fieldValues field records).sum /
              ((fieldValues field records).length : ℚ))))
    ∧ average_measure_data [] = []
    ∧ (∀ p ∈ average_measure_data records, p.1 ∈ fields_to_average ∧
        ¬ (fieldValues p.1 records).isEmpty ∧
        p.2 = round2 ((fieldValues p.1 records).sum /
          ((fieldValues p.1 records).length : ℚ)))
    ∧ (∀ field : String, field ∉ fields_to_average →
        ∀ q : ℚ, (field, q) ∉ average_measure_data records) := by
  have hmain : average_measure_data records =
      (fields_to_average.filter
          (fun field => !(fieldValues field records).isEmpty)).map
        (fun field => (field,
          round2 ((fieldValues field records).sum /
            ((fieldValues field records).length : ℚ)))) := by
    unfold average_measure_data
    exact filterMap_ite fields_to_average
      (fun field => (fieldValues field records).isEmpty)
      (fun field => (field,
        round2 ((fieldValues field records).sum /
          ((fieldValues field records).length : ℚ))))
  have hthird : ∀ p ∈ average_measure_data records, p.1 ∈ fields_to_average ∧
      ¬ (fieldValues p.1 records).isEmpty ∧
      p.2 = round2 ((fieldValues p.1 records).sum /
        ((fieldValues p.1 records).length : ℚ)) := by
    intro p hp
    rw [hmain] at hp
    obtain ⟨f, hf, hfp⟩ := List.mem_map.mp hp
    obtain ⟨hfmem, hfne⟩ := List.mem_filter.mp hf
    have h1 : p.1 = f := by rw [← hfp]
    have h2 : p.2 = round2 ((fieldValues f records).sum /
        ((fieldValues f records).length : ℚ)) := by rw [← hfp]
    rw [h1, h2]
    exact ⟨hfmem, by simpa using hfne, rfl⟩
  refine ⟨hmain, rfl, hthird, ?_⟩
  intro field hfield q hq
  exact hfield (hthird (field, q) hq).1

/-- Witness for `average_measure_data_spec`: the per-entry implication at a
concrete record list (one record carrying `atmp = 23`). -/
theorem average_measure_data_spec_witness :
    ("atmp", (23 : ℚ)) ∈ average_measure_data
        [⟨0, MeasureValue.obj [("atmp", MeasureValue.num 23)]⟩]
    ∧ "atmp" ∈ fields_to_average := by
  have hfv : ∀ f : String, fieldValues f
      [⟨0, MeasureValue.obj [("atmp", MeasureValue.num 23)]⟩] =
        if f == "atmp" then [(23 : ℚ)] else [] := by
    intro f
    by_cases hf : f == "atmp"
    · simp [fieldValues, lookupField, numericValue, List.lookup, hf]
    · simp [fieldValues, lookupField, numericValue, List.lookup, hf]
  have heval : average_measure_data
      [⟨0, MeasureValue.obj [("atmp", MeasureValue.num 23)]⟩] =
        [("atmp", (23 : ℚ))] := by
    norm_num +decide [average_measure_data, fields_to_average, hfv,
      List.filterMap_cons, round2]
  have hmem : ("atmp", (23 : ℚ)) ∈ average_measure_data
      [⟨0, MeasureValue.obj [("atmp", MeasureValue.num 23)]⟩] := by
    rw [heval]
    exact List.mem_singleton_self _
  exact ⟨hmem,
    ((average_measure_data_spec
      [⟨0, MeasureValue.obj [("atmp", MeasureValue.num 23)]⟩]).2.2.1 _ hmem).1⟩

/-- C5: a run resumes from the watermark: the resume point is the latest
bucket's end-timestamp (or the 30-day lookback when none exists), only raw
rows strictly newer than the resume point are fetched, and every bucket the
run produces for the location has an end-timestamp strictly greater than
the watermark. -/
theorem process_location_resume_spec (ct met : Nat)
    (buckets : List Aqi30MinuteHistory) (raws : List Aqi5MinuteHistory) :
    (∀ T, latest_30_minute_time buckets = some T → resume_start_time ct buckets = T)
    ∧ (latest_30_minute_time buckets = none →
        resume_start_time ct buckets = ct - 30 * usPerDay)
    ∧ (∀ r ∈ fetch_five_minute_records (resume_start_time ct buckets) met raws,
        resume_start_time ct buckets < r.measure_time)
    ∧ (∀ b ∈ process_location ct met buckets raws,
        resume_start_time ct buckets < b.measure_time)
    ∧ (∀ T, latest_30_minute_time buckets = some T →
        ∀ b ∈ process_location ct met buckets raws, T < b.measure_time) := by
  refine ⟨?_, ?_, ?_, ?_, ?_⟩
  · intro T h
    unfold resume_start_time
    rw [h]
  · intro h
    unfold resume_start_time
    rw [h]
  · intro r hr
    unfold fetch_five_minute_records at hr
    rw [List.mem_filter, decide_eq_true_eq] at hr
    exact hr.2.1
  · intro b hb
    exact (process_location_time_bounds ct met buckets raws b hb).1
  · intro T hT b hb
    have h1 : resume_start_time ct buckets = T := by
      unfold resume_start_time
      rw [hT]
    have h2 := (process_location_time_bounds ct met buckets raws b hb).1
    omega

/-- Witness for `process_location_resume_spec`: a concrete store with
watermark 10:30 whose run inserts exactly the 11:00 bucket, strictly past
the watermark. -/
theorem process_location_resume_spec_witness :
    latest_30_minute_time [⟨mkTime 10 30 0, [("atmp", (22 : ℚ))]⟩] =
        some (mkTime 10 30 0)
    ∧ (⟨mkTime 11 0 0, [("atmp", (23 : ℚ))]⟩ : Aqi30MinuteHistory) ∈
        process_location (mkTime 12 0 0) (mkTime 11 0 0)
          [⟨mkTime 10 30 0, [("atmp", (22 : ℚ))]⟩]
          [⟨mkTime 10 45 0, MeasureValue.obj [("atmp", MeasureValue.num 23)]⟩]
    ∧ mkTime 10 30 0 < mkTime 11 0 0 := by
  have hfv : ∀ f : String, fieldValues f
      [⟨mkTime 10 45 0, MeasureValue.obj [("atmp", MeasureValue.num 23)]⟩] =
        if f == "atmp" then [(23 : ℚ)] else [] := by
    intro f
    by_cases hf : f == "atmp"
    · simp [fieldValues, lookupField, numericValue, List.lookup, hf]
    · simp [fieldValues, lookupField, numericValue, List.lookup, hf]
  have havg : average_measure_data
      [⟨mkTime 10 45 0, MeasureValue.obj [("atmp", MeasureValue.num 23)]⟩] =
        [("atmp", (23 : ℚ))] := by
    norm_num +decide [average_measure_data, fields_to_average, hfv,
      List.filterMap_cons, round2]
  have h1 : process_location (mkTime 12 0 0) (mkTime 11 0 0)
      [⟨mkTime 10 30 0, [("atmp", (22 : ℚ))]⟩]
      [⟨mkTime 10 45 0, MeasureValue.obj [("atmp", MeasureValue.num 23)]⟩] =
        [⟨mkTime 11 0 0, average_measure_data
          [⟨mkTime 10 45 0, MeasureValue.obj [("atmp", MeasureValue.num 23)]⟩]⟩] :=
    rfl
  have heval : process_location (mkTime 12 0 0) (mkTime 11 0 0)
      [⟨mkTime 10 30 0, [("atmp", (22 : ℚ))]⟩]
      [⟨mkTime 10 45 0, MeasureValue.obj [("atmp", MeasureValue.num 23)]⟩] =
        [⟨mkTime 11 0 0, [("atmp", (23 : ℚ))]⟩] := by
    rw [h1, havg]
  have hmem : (⟨mkTime 11 0 0, [("atmp", (23 : ℚ))]⟩ : Aqi30MinuteHistory) ∈
      process_location (mkTime 12 0 0) (mkTime 11 0 0)
        [⟨mkTime 10 30 0, [("atmp", (22 : ℚ))]⟩]
        [⟨mkTime 10 45 0, MeasureValue.obj [("atmp", MeasureValue.num 23)]⟩] := by
    rw [heval]
    exact List.mem_singleton_self _
  refine ⟨rfl, hmem, ?_⟩
  exact (process_location_resume_spec (mkTime 12 0 0) (mkTime 11 0 0)
      [⟨mkTime 10 30 0, [("atmp", (22 : ℚ))]⟩]
      [⟨mkTime 10 45 0, MeasureValue.obj [("atmp", MeasureValue.num 23)]⟩]).2.2.2.2
    (mkTime 10 30 0) rfl _ hmem

theorem window_good_facts (buckets : List Aqi30MinuteHistory)
    (five : List Aqi5MinuteHistory) (w : Nat × Nat)
    (h : window_good buckets five w = true) :
    (window_records w.1 w.2 five).isEmpty = false ∧
      (average_measure_data (window_records w.1 w.2 five)).isEmpty = false ∧
      ∀ b ∈ buckets, b.measure_time ≠ w.2 := by
  unfold window_good at h
  rw [Bool.and_eq_true, Bool.and_eq_true] at h
  refine ⟨by simpa using h.1, by simpa using h.2.1, ?_⟩
  have hC : buckets.any (fun b => b.measure_time == w.2) = false := by
    simpa using h.2.2
  rw [List.any_eq_false] at hC
  intro b hb
  simpa using hC b hb

/-- C7: the run preserves per-(entity, end-timestamp) uniqueness: it checks
for an existing bucket with the window's end before inserting and skips when
one is present, it only appends (never updates or deletes), and a store with
distinct bucket end-timestamps keeps them distinct. -/
theorem bucket_uniqueness_spec (ct met : Nat) (buckets : List Aqi30MinuteHistory)
    (raws : List Aqi5MinuteHistory) :
    ((buckets.map (fun b => b.measure_time)).Nodup →
      (((buckets ++ process_location ct met buckets raws).map
        (fun b => b.measure_time)).Nodup))
    ∧ (∀ b ∈ process_location ct met buckets raws, ∀ b' ∈ buckets,
        b'.measure_time ≠ b.measure_time) := by
  have hfresh : ∀ b ∈ process_location ct met buckets raws, ∀ b' ∈ buckets,
      b'.measure_time ≠ b.measure_time := by
    intro b hb b' hb'
    obtain ⟨w, hwmem, hbw, hgood⟩ := mem_process_location ct met buckets raws b hb
    have hbt : b.measure_time = w.2 := by rw [hbw]; rfl
    rw [hbt]
    exact (window_good_facts buckets _ w hgood).2.2 b' hb'
  refine ⟨?_, hfresh⟩
  intro hnd
  rw [List.map_append, List.nodup_append]
  refine ⟨hnd, ?_, ?_⟩
  · rw [process_location_eq]
    split
    · simp
    · rw [List.map_map]
      have hcomp : ((fun b : Aqi30MinuteHistory => b.measure_time) ∘
          window_bucket (fetch_five_minute_records
            (resume_start_time ct buckets) met raws)) = Prod.snd := rfl
      rw [hcomp]
      exact List.Nodup.sublist
        (List.Sublist.map Prod.snd (List.filter_sublist _))
        (windows_snd_nodup _ _)
  · intro a ha har
    obtain ⟨b', hb', hb'a⟩ := List.mem_map.mp ha
    obtain ⟨b, hb, hba⟩ := List.mem_map.mp har
    exact hfresh b hb b' hb' (by omega)

/-- Witness for `bucket_uniqueness_spec`: uniqueness is preserved on a
concrete store where a run inserts one new bucket. -/
theorem bucket_uniqueness_spec_witness :
    (([⟨mkTime 10 30 0, [("atmp", (22 : ℚ))]⟩] :
        List Aqi30MinuteHistory).map (fun b => b.measure_time)).Nodup
    ∧ ((([⟨mkTime 10 30 0, [("atmp", (22 : ℚ))]⟩] :
        List Aqi30MinuteHistory) ++
          process_location (mkTime 12 0 0) (mkTime 11 0 0)
            [⟨mkTime 10 30 0, [("atmp", (22 : ℚ))]⟩]
            [⟨mkTime 10 45 0, MeasureValue.obj
              [("atmp", MeasureValue.num 23)]⟩]).map
        (fun b => b.measure_time)).Nodup :=
  ⟨by decide,
    (bucket_uniqueness_spec (mkTime 12 0 0) (mkTime 11 0 0)
      [⟨mkTime 10 30 0, [("atmp", (22 : ℚ))]⟩]
      [⟨mkTime 10 45 0, MeasureValue.obj [("atmp", MeasureValue.num 23)]⟩]).1
      (by decide)⟩

/-- Re-running per-location processing on the store left by a completed run,
with the same raw rows and the same ceiling, inserts nothing. -/
theorem process_location_idempotent (ct met : Nat)
    (buckets : List Aqi30MinuteHistory) (raws : List Aqi5MinuteHistory) :
    process_location ct met
      (buckets ++ process_location ct met buckets raws) raws = [] := by
  by_cases hins0 : process_location ct met buckets raws = []
  · rw [hins0, List.append_nil]
    exact hins0
  · have hΔ : halfHourUs = 1800000000 := rfl
    obtain ⟨T, hT⟩ : ∃ T, latest_30_minute_time
        (buckets ++ process_location ct met buckets raws) = some T := by
      apply latest_30_minute_time_isSome
      intro hcontra
      exact hins0 (List.append_eq_nil.mp hcontra).2
    obtain ⟨⟨bT, hbT, hbTt⟩, hTub⟩ := latest_30_minute_time_spec _ T hT
    have hstart2 : resume_start_time ct
        (buckets ++ process_location ct met buckets raws) = T := by
      unfold resume_start_time
      rw [hT]
    have hold : ∀ b ∈ buckets, b.measure_time ≤ resume_start_time ct buckets := by
      intro b hb
      cases hlb : latest_30_minute_time buckets with
      | none =>
        rw [latest_30_minute_time_eq_none] at hlb
        rw [hlb] at hb
        exact absurd hb (List.not_mem_nil b)
      | some wm =>
        have hle := (latest_30_minute_time_spec buckets wm hlb).2 b hb
        have heq : resume_start_time ct buckets = wm := by
          unfold resume_start_time
          rw [hlb]
        omega
    have hinsgt : ∀ b ∈ process_location ct met buckets raws,
        resume_start_time ct buckets < b.measure_time ∧ b.measure_time ≤ met ∧
          b.measure_time % halfHourUs = 0 :=
      fun b hb => process_location_time_bounds ct met buckets raws b hb
    have hTins : ∃ b ∈ process_location ct met buckets raws, b.measure_time = T := by
      rcases List.mem_append.mp hbT with hbold | hbins
      · exfalso
        obtain ⟨b0, hb0⟩ := List.exists_mem_of_ne_nil _ hins0
        have h1 := (hinsgt b0 hb0).1
        have h2 := hTub b0 (List.mem_append.mpr (Or.inr hb0))
        have h3 := hold bT hbold
        omega
      · exact ⟨bT, hbins, hbTt⟩
    obtain ⟨b1, hb1, hb1T⟩ := hTins
    have hTfacts := hinsgt b1 hb1
    have hs1T : resume_start_time ct buckets < T := by omega
    have hTmod : T % halfHourUs = 0 := by rw [← hb1T]; exact hTfacts.2.2
    have hfive1ne : (fetch_five_minute_records (resume_start_time ct buckets)
        met raws).isEmpty = false := by
      by_contra h
      have h' : (fetch_five_minute_records (resume_start_time ct buckets)
          met raws).isEmpty = true := by
        revert h
        cases (fetch_five_minute_records (resume_start_time ct buckets)
          met raws).isEmpty <;> simp
      apply hins0
      unfold process_location
      rw [if_pos h']
    have hchar : process_location ct met buckets raws =
        ((get_30_minute_windows (resume_start_time ct buckets) met).filter
            (window_good buckets
              (fetch_five_minute_records (resume_start_time ct buckets) met raws))).map
          (window_bucket
            (fetch_five_minute_records (resume_start_time ct buckets) met raws)) := by
      rw [process_location_eq, if_neg (by rw [hfive1ne]; exact Bool.false_ne_true)]
    rw [process_location_eq, hstart2]
    split
    · rfl
    · have hskip : ∀ w ∈ get_30_minute_windows T met,
          window_good (buckets ++ process_location ct met buckets raws)
            (fetch_five_minute_records T met raws) w = false := by
        intro w hw
        obtain ⟨hw1mod, hw2mod, hwrd, hw2eq, hw2met, hwTlt⟩ :=
          window_mem_facts T met w hw
        have hrdT : round_down_to_half_hour T = T := by
          rw [round_down_eq_sub_mod, hTmod]
          exact Nat.sub_zero T
        have hTw1 : T ≤ w.1 := by rw [hrdT] at hwrd; exact hwrd
        have hwin1 : w ∈ get_30_minute_windows (resume_start_time ct buckets) met := by
          rw [mem_get_30_minute_windows]
          have hle := round_down_le (resume_start_time ct buckets)
          exact ⟨hw1mod, by omega, hw2eq, hw2met⟩
        have hgood1 : window_good buckets
            (fetch_five_minute_records (resume_start_time ct buckets) met raws) w
              = false := by
          by_contra hcontra
          have hgood1' : window_good buckets
              (fetch_five_minute_records (resume_start_time ct buckets) met raws) w
                = true := by
            revert hcontra
            cases window_good buckets
              (fetch_five_minute_records (resume_start_time ct buckets) met raws) w <;>
              simp
          have hmem : window_bucket
              (fetch_five_minute_records (resume_start_time ct buckets) met raws) w ∈
                process_location ct met buckets raws := by
            rw [hchar]
            exact List.mem_map.mpr ⟨w, List.mem_filter.mpr ⟨hwin1, hgood1'⟩, rfl⟩
          have hle := hTub _ (List.mem_append.mpr (Or.inr hmem))
          have hwt : (window_bucket
              (fetch_five_minute_records (resume_start_time ct buckets) met raws)
                w).measure_time = w.2 := rfl
          omega
        have hCfalse : buckets.any (fun b => b.measure_time == w.2) = false := by
          rw [List.any_eq_false]
          intro b hb
          have hble := hold b hb
          simp only [beq_iff_eq]
          omega
        have hAB : (window_records w.1 w.2
            (fetch_five_minute_records (resume_start_time ct buckets) met raws)).isEmpty
              = true ∨
            (average_measure_data (window_records w.1 w.2
              (fetch_five_minute_records (resume_start_time ct buckets)
                met raws))).isEmpty = true := by
          unfold window_good at hgood1
          rw [hCfalse] at hgood1
          revert hgood1
          cases hA : (window_records w.1 w.2
              (fetch_five_minute_records (resume_start_time ct buckets)
                met raws)).isEmpty <;>
            cases hB : (average_measure_data (window_records w.1 w.2
              (fetch_five_minute_records (resume_start_time ct buckets)
                met raws))).isEmpty <;> simp
        have hwr1 : window_records w.1 w.2
            (fetch_five_minute_records (resume_start_time ct buckets) met raws) =
              window_records w.1 w.2 raws :=
          window_records_fetch (resume_start_time ct buckets) met w.1 w.2 raws
            (by omega) hw2met
        have hwr2 : window_records w.1 w.2 (fetch_five_minute_records T met raws) =
            window_records w.1 w.2 raws :=
          window_records_fetch T met w.1 w.2 raws hTw1 hw2met
        unfold window_good
        rw [hwr2, ← hwr1]
        rcases hAB with hA | hB
        · rw [hA]
          rfl
        · rw [hB]
          simp
      rw [List.filter_eq_nil_iff.mpr
        (fun w hw => by rw [hskip w hw]; exact Bool.false_ne_true)]
      rfl

theorem run_locations_all_ok (ct met : Nat) (locs : List LocationState) :
    run_locations ct met (locs.map (fun st => some st)) =
      (locs.map (fun st => process_location ct met st.buckets st.raws), none) := by
  induction locs with
  | nil => rfl
  | cons st rest ih => simp [run_locations, ih]

/-- C6: the aggregation run is idempotent.  The first conjunct identifies
the buckets a run over a given store inserts; the second shows a second run
over the store updated with exactly those inserts (same raw rows, same
ceiling) inserts nothing at any location. -/
theorem aggregate_30_minute_data_idempotent (current_time : Nat)
    (locs : List LocationState) :
    (aggregate_30_minute_data current_time (locs.map (fun st => some st))).2 =
        locs.map (fun st =>
          process_location current_time (global_ceiling current_time)
            st.buckets st.raws)
    ∧ (aggregate_30_minute_data current_time
        ((locs.map (fun st => LocationState.mk
          (st.buckets ++ process_location current_time (global_ceiling current_time)
            st.buckets st.raws) st.raws)).map (fun st => some st))).2 =
        locs.map (fun _ => ([] : List Aqi30MinuteHistory)) := by
  have haux : ∀ (L : List LocationState),
      (aggregate_30_minute_data current_time (L.map (fun st => some st))).2 =
        L.map (fun st => process_location current_time (global_ceiling current_time)
          st.buckets st.raws) := by
    intro L
    cases L with
    | nil => rfl
    | cons st rest =>
      have hrl : run_locations current_time (global_ceiling current_time)
          (some st :: rest.map (fun st => some st)) =
            (process_location current_time (global_ceiling current_time)
                st.buckets st.raws ::
              rest.map (fun st => process_location current_time
                (global_ceiling current_time) st.buckets st.raws), none) := by
        have h := run_locations_all_ok current_time (global_ceiling current_time)
          (st :: rest)
        simpa using h
      simp only [aggregate_30_minute_data, List.map_cons, List.isEmpty_cons,
        Bool.false_eq_true, if_false, hrl]
  refine ⟨haux locs, ?_⟩
  rw [haux (locs.map (fun st => LocationState.mk
    (st.buckets ++ process_location current_time (global_ceiling current_time)
      st.buckets st.raws) st.raws))]
  rw [List.map_map]
  refine List.map_congr_left fun st _ => ?_
  exact process_location_idempotent current_time (global_ceiling current_time)
    st.buckets st.raws

theorem run_locations_stops_at_failure (ct met : Nat) (pre : List LocationState)
    (rest : List (Option LocationState)) :
    run_locations ct met (pre.map (fun st => some st) ++ none :: rest) =
      (pre.map (fun st => process_location ct met st.buckets st.raws),
        some "database error") := by
  induction pre with
  | nil => rfl
  | cons st p ih => simp [run_locations, ih]

/-- C8 counterexample: with two tracked locations where the first raises,
the run's output contains no result for the second location even though
processing it alone would insert a bucket — the second entity is not
processed, refuting per-entity failure isolation. -/
theorem per_entity_isolation_counterexample :
    (aggregate_30_minute_data (mkTime 11 30 0)
        [none, some ⟨[⟨mkTime 10 30 0, [("atmp", (22 : ℚ))]⟩],
          [⟨mkTime 10 45 0, MeasureValue.obj [("atmp", MeasureValue.num 23)]⟩]⟩]).2
      = []
    ∧ (aggregate_30_minute_data (mkTime 11 30 0)
        [none, some ⟨[⟨mkTime 10 30 0, [("atmp", (22 : ℚ))]⟩],
          [⟨mkTime 10 45 0, MeasureValue.obj [("atmp", MeasureValue.num 23)]⟩]⟩]).1.status
      = "failed"
    ∧ process_location (mkTime 11 30 0) (global_ceiling (mkTime 11 30 0))
        [⟨mkTime 10 30 0, [("atmp", (22 : ℚ))]⟩]
        [⟨mkTime 10 45 0, MeasureValue.obj [("atmp", MeasureValue.num 23)]⟩] ≠ [] := by
  refine ⟨rfl, rfl, ?_⟩
  have h1 : process_location (mkTime 11 30 0) (global_ceiling (mkTime 11 30 0))
      [⟨mkTime 10 30 0, [("atmp", (22 : ℚ))]⟩]
      [⟨mkTime 10 45 0, MeasureValue.obj [("atmp", MeasureValue.num 23)]⟩] =
        [⟨mkTime 11 0 0, average_measure_data
          [⟨mkTime 10 45 0, MeasureValue.obj [("atmp", MeasureValue.num 23)]⟩]⟩] :=
    rfl
  rw [h1]
  exact List.cons_ne_nil _ _

/-- C8 amended: the per-location loop body is guarded only by the run-level
`try`, so when processing one location raises, the run aborts: locations
before the failing one keep their results and commits, locations after it
are not processed at all, and the run reports the error. -/
theorem run_aborts_on_entity_failure (ct met : Nat) (pre : List LocationState)
    (rest : List (Option LocationState)) :
    run_locations ct met (pre.map (fun st => some st) ++ none :: rest) =
      (pre.map (fun st => process_location ct met st.buckets st.raws),
        some "database error") :=
  run_locations_stops_at_failure ct met pre rest

/-- C9: an exception anywhere in the per-location loop aborts the rest of
the run and the task-log row is updated to `failed` with the error message
(also recorded as `error_message`) as the result; a run with no exception
ends `completed` and successful. -/
theorem run_log_failure_spec (ct : Nat) (locs : List (Option LocationState)) :
    (∀ e, (run_locations ct (global_ceiling ct) locs).2 = some e →
        (aggregate_30_minute_data ct locs).1.status = "failed"
        ∧ (aggregate_30_minute_data ct locs).1.result =
            some ("Error in aggregate_30_minute_data: " ++ e)
        ∧ (aggregate_30_minute_data ct locs).1.error_message =
            some ("Error in aggregate_30_minute_data: " ++ e)
        ∧ (aggregate_30_minute_data ct locs).1.is_successful = some false)
    ∧ ((run_locations ct (global_ceiling ct) locs).2 = none →
        (aggregate_30_minute_data ct locs).1.status = "completed"
        ∧ (aggregate_30_minute_data ct locs).1.is_successful = some true)
    ∧ (∀ (pre : List LocationState) (rest : List (Option LocationState)),
        locs = pre.map (fun st => some st) ++ none :: rest →
        (aggregate_30_minute_data ct locs).2 =
          pre.map (fun st =>
            process_location ct (global_ceiling ct) st.buckets st.raws)) := by
  refine ⟨?_, ?_, ?_⟩
  · intro e he
    by_cases hnil : locs = []
    · subst hnil
      simp [run_locations] at he
    · unfold aggregate_30_minute_data
      rw [if_neg (by simp [List.isEmpty_iff, hnil])]
      cases hrun : run_locations ct (global_ceiling ct) locs with
      | mk outs err =>
        cases err with
        | none =>
          rw [hrun] at he
          simp at he
        | some e' =>
          rw [hrun] at he
          have hee : e' = e := by simpa using he
          subst hee
          exact ⟨rfl, rfl, rfl, rfl⟩
  · intro hnone
    by_cases hnil : locs = []
    · subst hnil
      exact ⟨rfl, rfl⟩
    · unfold aggregate_30_minute_data
      rw [if_neg (by simp [List.isEmpty_iff, hnil])]
      cases hrun : run_locations ct (global_ceiling ct) locs with
      | mk outs err =>
        cases err with
        | none => exact ⟨rfl, rfl⟩
        | some e' =>
          rw [hrun] at hnone
          simp at hnone
  · intro pre rest hlocs
    subst hlocs
    unfold aggregate_30_minute_data
    rw [if_neg (by simp)]
    rw [run_locations_stops_at_failure]

/-- Witness for `run_log_failure_spec`: one run that raises on its only
location ends `failed`; one with no locations ends `completed`. -/
theorem run_log_failure_spec_witness :
    (run_locations (mkTime 11 30 0) (global_ceiling (mkTime 11 30 0))
        [none]).2 = some "database error"
    ∧ (aggregate_30_minute_data (mkTime 11 30 0) [none]).1.status = "failed"
    ∧ (aggregate_30_minute_data (mkTime 11 30 0)
        ([] : List (Option LocationState))).1.status = "completed" :=
  ⟨rfl,
    ((run_log_failure_spec (mkTime 11 30 0) [none]).1 "database error" rfl).1,
    ((run_log_failure_spec (mkTime 11 30 0) []).2.1 rfl).1⟩
